import Mathlib

/-!
Verification development for the CS:GO case calculator
(`src/csgo_case_calculator.py`), a Flask app that values a fixed
inventory of items against cached upstream market prices, persists
timestamped snapshots and serves a history of grand totals.

The Python source is shallowly embedded: floats are modelled as exact
rationals (`ℚ`), Python strings as `String`/`List Char`, dicts as
association lists, file-system state as explicit values, and the
network as an oracle function passed in as a parameter.
-/

/-! ## Rounding: model of Python `round(x, 2)` (round half to even) -/

/-- Floor of a rational, computed with integer floor division
(the denominator of a `Rat` is always positive). -/
def ratFloor (q : ℚ) : ℤ := Int.fdiv q.num q.den

/-- Round a rational to the nearest integer, ties to even
(Python's rounding mode for `round`). -/
def rhe (q : ℚ) : ℤ :=
  let f := ratFloor q
  if q - f < 1/2 then f
  else if (1:ℚ)/2 < q - f then f + 1
  else if f % 2 = 0 then f else f + 1

/-- Model of Python `round(x, 2)`: round to two decimal places,
ties to even. -/
def round2 (q : ℚ) : ℚ := (rhe (q * 100) : ℚ) / 100

/-! ## Price-string parsing

`fetch_price_eur` parses a locale-formatted price with
`float(price_raw.replace("€", "").replace(" ", "").replace(",", "."))`
(line 87 of the source).
-/

/-- Digit test for ASCII `'0'`-`'9'`. -/
def isDig (c : Char) : Bool := decide (48 ≤ c.toNat) && decide (c.toNat ≤ 57)

/-- Numeric value of a digit character. -/
def vch (c : Char) : ℕ := c.toNat - 48

/-- Value of a digit string, most significant digit first. -/
def natOfDigits (l : List Char) : ℕ := l.foldl (fun a c => 10 * a + vch c) 0

/-- Model of the chained `str.replace` calls on line 87: delete every
`'€'`, delete every `' '`, then turn each `','` into `'.'`. -/
def normalize_price (s : String) : List Char :=
  ((s.data.filter (fun c => c ≠ '€')).filter (fun c => c ≠ ' ')).map
    (fun c => if c = ',' then '.' else c)

/-- Digits of an unsigned decimal literal, split at the optional dot:
integer part, fraction part, number of fraction digits.  Mirrors the
decimal forms accepted by Python `float` (`"12"`, `"12."`, `".5"`,
`"12.34"`); exponent and infinity forms never arise from price strings
and are not modelled. -/
def pyFloatParts (l : List Char) : Option (ℕ × ℕ × ℕ) :=
  let ip := l.takeWhile (fun c => c ≠ '.')
  let rest := l.dropWhile (fun c => c ≠ '.')
  match rest with
  | [] => if !ip.isEmpty && ip.all isDig then some (natOfDigits ip, 0, 0) else none
  | _ :: fp =>
    if (!ip.isEmpty || !fp.isEmpty) && ip.all isDig && fp.all isDig then
      some (natOfDigits ip, natOfDigits fp, fp.length)
    else none

/-- Rational value of the parts returned by `pyFloatParts`. -/
def partsToRat (p : ℕ × ℕ × ℕ) : ℚ := (p.1 : ℚ) + (p.2.1 : ℚ) / 10 ^ p.2.2

/-- Model of Python `float(s)` on the strings reaching line 87:
optional sign followed by an unsigned decimal literal; returns `none`
where `float` raises `ValueError`. -/
def pyFloat (l : List Char) : Option ℚ :=
  match l with
  | [] => none
  | c :: rest =>
    if c = '-' then (pyFloatParts rest).map (fun p => -(partsToRat p))
    else if c = '+' then (pyFloatParts rest).map partsToRat
    else (pyFloatParts (c :: rest)).map partsToRat

/-- The price parser of line 87: normalize the locale string, then
convert to a number. -/
def parse_price_str (s : String) : Option ℚ := pyFloat (normalize_price s)

/-! ## Upstream response handling (lines 83-87) -/

/-- Fields of the Steam price-overview JSON the code reads:
`data.get("lowest_price")` and `data.get("median_price")`. -/
structure PriceResponse where
  lowest_price : Option String
  median_price : Option String

/-- Python truthiness of `data.get(key)` for a string field:
falsy when missing or the empty string. -/
def pyTruthy : Option String → Bool
  | none => false
  | some s => !s.isEmpty

/-- Line 84, `data.get("lowest_price") or data.get("median_price")`:
the lowest price if truthy, otherwise the median price. -/
def price_raw (r : PriceResponse) : Option String :=
  if pyTruthy r.lowest_price then r.lowest_price else r.median_price

/-- Lines 84-87: pick the raw price string, fail when it is falsy
(the `if not price_raw: raise` guard), then parse it.  `none` is any
exception caught by the handler on line 90. -/
def parse_attempt (r : PriceResponse) : Option ℚ :=
  match price_raw r with
  | none => none
  | some s => if s.isEmpty then none else parse_price_str s

/-- Outcome of the whole `requests.get` / `raise_for_status` / `json`
/ parse pipeline for one item: the oracle `upstream` returns `none`
for a network, status or JSON failure, and a `PriceResponse`
otherwise. -/
def upstream_price (upstream : String → Option PriceResponse) (name : String) : Option ℚ :=
  (upstream name).bind parse_attempt

/-! ## Price cache (lines 42-67) -/

/-- One value of the cache dict: `{"price_eur": ..., "ts": ...}`. -/
structure CacheEntry where
  price_eur : ℚ
  ts : ℚ
deriving DecidableEq, Repr

/-- The cache dict, item name to entry.  Keys are unique in a Python
dict; lookup takes the first match. -/
def Cache := List (String × CacheEntry)

/-- Model of `cache.get(item_name)`. -/
def cacheGet : Cache → String → Option CacheEntry
  | [], _ => none
  | e :: rest, k => if e.1 = k then some e.2 else cacheGet rest k

/-- Model of `cache[item_name] = v`: replace in place, or append. -/
def cacheSet : Cache → String → CacheEntry → Cache
  | [], k, v => [(k, v)]
  | e :: rest, k, v => if e.1 = k then (k, v) :: rest else e :: cacheSet rest k v

/-- `CACHE_TTL = 3600` (line 44). -/
def CACHE_TTL : ℚ := 3600

/-- On-disk state of `price_cache.json` as `_load_cache` sees it. -/
inductive CacheFile where
  | missing
  | corrupt
  | valid (c : Cache)

/-- `_load_cache` (lines 53-60): a missing file or a file whose JSON
load raises yields the empty dict; the function itself never raises. -/
def load_cache : CacheFile → Cache
  | CacheFile.missing => []
  | CacheFile.corrupt => []
  | CacheFile.valid c => c

/-! ## `fetch_price_eur` (lines 71-92) -/

/-- Result of one `fetch_price_eur` call: the returned price, the
cache dict after the call (the Python function mutates it in place),
and whether an upstream request was issued. -/
structure FetchResult where
  price : Option ℚ
  cache : Cache
  requested : Bool

/-- The upstream branch of `fetch_price_eur` (lines 76-92): issue the
request; on success store `{"price_eur": price, "ts": now}` and return
the price; on any exception return `None` with the cache untouched. -/
def fetch_upstream (upstream : String → Option PriceResponse) (now : ℚ)
    (item_name : String) (cache : Cache) : FetchResult :=
  match upstream_price upstream item_name with
  | some p => ⟨some p, cacheSet cache item_name ⟨p, now⟩, true⟩
  | none => ⟨none, cache, true⟩

/-- `fetch_price_eur` (lines 71-92): serve from the cache when an
entry exists and `now - entry["ts"] < CACHE_TTL`, otherwise go
upstream. -/
def fetch_price_eur (upstream : String → Option PriceResponse) (now : ℚ)
    (item_name : String) (cache : Cache) : FetchResult :=
  match cacheGet cache item_name with
  | some entry =>
    if now - entry.ts < CACHE_TTL then ⟨some entry.price_eur, cache, false⟩
    else fetch_upstream upstream now item_name cache
  | none => fetch_upstream upstream now item_name cache

/-! ## Valuation pass: `api_prices` (lines 96-111) -/

/-- One row of the `/api/prices` response (line 107). -/
structure Item where
  name : String
  count : ℕ
  price : Option ℚ
  total : Option ℚ

/-- Loop state of the `for name, count in INVENTORY.items()` loop:
the rows so far, the running `grand_total`, the (mutated) cache. -/
structure ValState where
  items : List Item
  gt : ℚ
  cache : Cache

/-- Body of the loop (lines 102-107): fetch the price, compute
`round(price * count, 2)` when the price is present, add a present
total to the running grand total, append the row. -/
def val_step (upstream : String → Option PriceResponse) (now : ℚ)
    (st : ValState) (entry : String × ℕ) : ValState :=
  let r := fetch_price_eur upstream now entry.1 st.cache
  let total := r.price.map (fun p => round2 (p * entry.2))
  { items := st.items ++ [⟨entry.1, entry.2, r.price, total⟩]
    gt := match total with
          | some x => st.gt + x
          | none => st.gt
    cache := r.cache }

/-- The `/api/prices` response value (line 111). -/
structure PricesResult where
  items : List Item
  grand_total : ℚ
  cache : Cache

/-- `api_prices` (lines 96-111): load the cache, run the valuation
loop over the inventory, round the accumulated grand total.  The
`_save_cache(cache)` call writes `cache` back to disk; the written
value is the `cache` field of the result. -/
def api_prices (upstream : String → Option PriceResponse) (now : ℚ)
    (file : CacheFile) (inventory : List (String × ℕ)) : PricesResult :=
  let st := inventory.foldl (val_step upstream now) ⟨[], 0, load_cache file⟩
  ⟨st.items, round2 st.gt, st.cache⟩

/-- `INVENTORY` (lines 32-40). -/
def INVENTORY : List (String × ℕ) :=
  [("Horizon Case", 1000),
   ("Danger Zone Case", 1000),
   ("Prisma Case", 1000),
   ("Spectrum 2 Case", 150),
   ("Clutch Case", 649),
   ("Falchion Case", 142),
   ("Operation Breakout Weapon Case", 100)]

/-! ## Characterization of the valuation loop -/

/-- The rows appended by the valuation loop, in inventory order. -/
def produced (upstream : String → Option PriceResponse) (now : ℚ) :
    List (String × ℕ) → Cache → List Item
  | [], _ => []
  | e :: rest, cache =>
    let r := fetch_price_eur upstream now e.1 cache
    ⟨e.1, e.2, r.price, r.price.map (fun p => round2 (p * e.2))⟩ ::
      produced upstream now rest r.cache

/-- The cache after the valuation loop has processed the given
entries. -/
def cache_after (upstream : String → Option PriceResponse) (now : ℚ) :
    List (String × ℕ) → Cache → Cache
  | [], cache => cache
  | e :: rest, cache =>
    cache_after upstream now rest (fetch_price_eur upstream now e.1 cache).cache

/-- Value of an optional line total as it enters the running sum:
an absent total contributes nothing. -/
def opt0 : Option ℚ → ℚ
  | some x => x
  | none => 0

lemma produced_cons (upstream : String → Option PriceResponse) (now : ℚ)
    (e : String × ℕ) (rest : List (String × ℕ)) (cache : Cache) :
    produced upstream now (e :: rest) cache =
      ⟨e.1, e.2, (fetch_price_eur upstream now e.1 cache).price,
        (fetch_price_eur upstream now e.1 cache).price.map (fun p => round2 (p * e.2))⟩ ::
        produced upstream now rest (fetch_price_eur upstream now e.1 cache).cache := rfl

lemma cache_after_cons (upstream : String → Option PriceResponse) (now : ℚ)
    (e : String × ℕ) (rest : List (String × ℕ)) (cache : Cache) :
    cache_after upstream now (e :: rest) cache =
      cache_after upstream now rest (fetch_price_eur upstream now e.1 cache).cache := rfl

lemma val_step_eq (upstream : String → Option PriceResponse) (now : ℚ)
    (st : ValState) (e : String × ℕ) :
    val_step upstream now st e =
      ⟨st.items ++ [⟨e.1, e.2, (fetch_price_eur upstream now e.1 st.cache).price,
          (fetch_price_eur upstream now e.1 st.cache).price.map (fun p => round2 (p * e.2))⟩],
       st.gt + opt0 ((fetch_price_eur upstream now e.1 st.cache).price.map
          (fun p => round2 (p * e.2))),
       (fetch_price_eur upstream now e.1 st.cache).cache⟩ := by
  unfold val_step
  cases h : (fetch_price_eur upstream now e.1 st.cache).price <;> simp [h, opt0]

lemma sum_filterMap_cons (it : Item) (l : List Item) :
    ((it :: l).filterMap Item.total).sum = opt0 it.total + (l.filterMap Item.total).sum := by
  cases h : it.total <;> simp [List.filterMap_cons, h, opt0]

lemma foldl_val_step (upstream : String → Option PriceResponse) (now : ℚ) :
    ∀ (inventory : List (String × ℕ)) (st : ValState),
      inventory.foldl (val_step upstream now) st =
        ⟨st.items ++ produced upstream now inventory st.cache,
         st.gt + ((produced upstream now inventory st.cache).filterMap Item.total).sum,
         cache_after upstream now inventory st.cache⟩ := by
  intro inventory
  induction inventory with
  | nil => intro st; simp [produced, cache_after]
  | cons e rest ih =>
    intro st
    rw [List.foldl_cons, ih, val_step_eq, produced_cons, cache_after_cons]
    rw [sum_filterMap_cons]
    refine congrArg₂ (fun a b => ValState.mk a b _) ?_ ?_
    · simp
    · show _ + _ + _ = _
      ring

lemma produced_total_shape (upstream : String → Option PriceResponse) (now : ℚ) :
    ∀ (inventory : List (String × ℕ)) (cache : Cache),
      ∀ it ∈ produced upstream now inventory cache,
        it.total = it.price.map (fun p => round2 (p * it.count)) := by
  intro inventory
  induction inventory with
  | nil => intro cache it h; simp [produced] at h
  | cons e rest ih =>
    intro cache it h
    rw [produced_cons] at h
    rcases List.mem_cons.mp h with h1 | h1
    · subst h1; rfl
    · exact ih _ it h1

lemma filterMap_total_congr (l : List Item)
    (h : ∀ it ∈ l, it.total = it.price.map (fun p => round2 (p * it.count))) :
    l.filterMap Item.total =
      l.filterMap (fun it => it.price.map (fun p => round2 (p * it.count))) := by
  induction l with
  | nil => rfl
  | cons a rest ih =>
    have ha := h a (List.mem_cons_self a rest)
    have hr := ih (fun it hit => h it (List.mem_cons_of_mem a hit))
    simp [List.filterMap_cons, ← ha, hr]

lemma round2_zero : round2 0 = 0 := by norm_num [round2, rhe, ratFloor]

lemma api_prices_eq (upstream : String → Option PriceResponse) (now : ℚ)
    (file : CacheFile) (inventory : List (String × ℕ)) :
    api_prices upstream now file inventory =
      ⟨produced upstream now inventory (load_cache file),
       round2 ((produced upstream now inventory (load_cache file)).filterMap Item.total).sum,
       cache_after upstream now inventory (load_cache file)⟩ := by
  unfold api_prices
  rw [foldl_val_step]
  simp

/-- C1: the grand total of every valuation pass equals the sum of the
line totals of exactly the inventory entries whose price was resolved
(absent prices are excluded, not treated as zero), each line total
being independently rounded as `round(price * count, 2)` before
summation, and the resulting sum itself rounded to two decimals. -/
theorem c1_grand_total_is_rounded_sum (upstream : String → Option PriceResponse)
    (now : ℚ) (file : CacheFile) (inventory : List (String × ℕ)) :
    (api_prices upstream now file inventory).grand_total =
      round2 (((api_prices upstream now file inventory).items.filterMap
        (fun it => it.price.map (fun p => round2 (p * it.count)))).sum) := by
  rw [api_prices_eq]
  have hshape := produced_total_shape upstream now inventory (load_cache file)
  show round2 _ = round2 _
  rw [filterMap_total_congr _ hshape]

/-- C9: in every `/api/prices` response row, the total is absent iff
the price is absent, and a present price yields the total
`round(price * count, 2)`. -/
theorem c9_total_absent_iff_price_absent (upstream : String → Option PriceResponse)
    (now : ℚ) (file : CacheFile) (inventory : List (String × ℕ)) (it : Item)
    (hit : it ∈ (api_prices upstream now file inventory).items) :
    (it.total = none ↔ it.price = none) ∧
      ∀ p, it.price = some p → it.total = some (round2 (p * it.count)) := by
  rw [api_prices_eq] at hit
  have h := produced_total_shape upstream now inventory (load_cache file) it hit
  constructor
  · rw [h]; cases hp : it.price <;> simp [hp]
  · intro p hp; rw [h, hp]; rfl

/-- Witness for C9 at a concrete valuation pass: one inventory item,
upstream always failing, so the row has an absent price and an absent
total. -/
theorem c9_witness :
    ((⟨"A", 2, none, none⟩ : Item).total = none ↔ (⟨"A", 2, none, none⟩ : Item).price = none) :=
  (c9_total_absent_iff_price_absent (fun _ => none) 0 CacheFile.missing [("A", 2)]
    ⟨"A", 2, none, none⟩ (List.mem_cons_self _ _)).1

/-- C7: the price parser turns the locale-formatted string
`"12,34 €"` (comma decimal separator, attached euro sign) into the
plain decimal number 12.34. -/
theorem c7_parse_locale_price : parse_price_str "12,34 €" = some (1234 / 100) := by
  have h1 : normalize_price "12,34 €" = '1' :: '2' :: '.' :: '3' :: '4' :: [] := by decide
  have h2 : pyFloatParts ('1' :: '2' :: '.' :: '3' :: '4' :: []) = some (12, 34, 2) := by decide
  rw [parse_price_str, h1, pyFloat]
  rw [if_neg (by decide), if_neg (by decide), h2]
  show some (partsToRat (12, 34, 2)) = _
  unfold partsToRat
  norm_num

/-! ## Cache-freshness and failure behaviour of `fetch_price_eur` -/

/-- C2: a cache entry younger than the TTL is served directly —
the cached price is returned, the cache is untouched and no upstream
request is made; and whenever a request is made, the cache either had
no entry for the item or the entry's age was at least the TTL. -/
theorem c2_fresh_hit_no_request (upstream : String → Option PriceResponse)
    (now : ℚ) (name : String) (cache : Cache) :
    (∀ entry, cacheGet cache name = some entry → now - entry.ts < CACHE_TTL →
      fetch_price_eur upstream now name cache = ⟨some entry.price_eur, cache, false⟩) ∧
    ((fetch_price_eur upstream now name cache).requested = true →
      cacheGet cache name = none ∨
        ∃ entry, cacheGet cache name = some entry ∧ CACHE_TTL ≤ now - entry.ts) := by
  cases hc : cacheGet cache name with
  | none =>
    refine ⟨fun entry he => by simp [hc] at he, fun _ => Or.inl rfl⟩
  | some entry =>
    constructor
    · intro e he hfresh
      rw [Option.some_inj] at he
      subst he
      simp [fetch_price_eur, hc, if_pos hfresh]
    · intro hreq
      by_cases hfresh : now - entry.ts < CACHE_TTL
      · exfalso
        simp [fetch_price_eur, hc, if_pos hfresh] at hreq
      · exact Or.inr ⟨entry, rfl, le_of_not_lt hfresh⟩

/-- Witness for C2: a one-entry cache fetched at age 1 second serves
the cached price with no request. -/
theorem c2_witness :
    fetch_price_eur (fun _ => none) 1 "Horizon Case" [("Horizon Case", ⟨10, 0⟩)] =
      ⟨some 10, [("Horizon Case", ⟨10, 0⟩)], false⟩ :=
  (c2_fresh_hit_no_request (fun _ => none) 1 "Horizon Case"
    [("Horizon Case", ⟨10, 0⟩)]).1 ⟨10, 0⟩ rfl (by norm_num [CACHE_TTL])

/-- C3: when the upstream lookup fails, `fetch_price_eur` leaves the
cache exactly as it was (no entry added, removed or modified, no
failure marker), returns `None` whenever it actually went upstream,
and a following call at any later time goes upstream again. -/
theorem c3_failure_leaves_cache_untouched (upstream : String → Option PriceResponse)
    (now : ℚ) (name : String) (cache : Cache)
    (hfail : upstream_price upstream name = none) :
    (fetch_price_eur upstream now name cache).cache = cache ∧
    ((fetch_price_eur upstream now name cache).requested = true →
      (fetch_price_eur upstream now name cache).price = none) ∧
    ((fetch_price_eur upstream now name cache).requested = true →
      ∀ later : ℚ, now ≤ later →
        (fetch_price_eur upstream later name
          ((fetch_price_eur upstream now name cache).cache)).requested = true) := by
  have hup : ∀ t : ℚ, fetch_upstream upstream t name cache = ⟨none, cache, true⟩ := by
    intro t
    unfold fetch_upstream
    rw [hfail]
  cases hc : cacheGet cache name with
  | none =>
    refine ⟨?_, ?_, ?_⟩
    · simp [fetch_price_eur, hc, hup]
    · intro _
      simp [fetch_price_eur, hc, hup]
    · intro _ later _
      simp [fetch_price_eur, hc, hup]
  | some entry =>
    by_cases hfresh : now - entry.ts < CACHE_TTL
    · refine ⟨?_, ?_, ?_⟩
      · simp [fetch_price_eur, hc, if_pos hfresh]
      · intro habs
        exfalso
        simp [fetch_price_eur, hc, if_pos hfresh] at habs
      · intro habs
        exfalso
        simp [fetch_price_eur, hc, if_pos hfresh] at habs
    · have hstale : CACHE_TTL ≤ now - entry.ts := le_of_not_lt hfresh
      refine ⟨?_, ?_, ?_⟩
      · simp [fetch_price_eur, hc, if_neg hfresh, hup]
      · intro _
        simp [fetch_price_eur, hc, if_neg hfresh, hup]
      · intro _ later hlater
        have hstale2 : ¬ later - entry.ts < CACHE_TTL := by
          intro hlt
          have : later - entry.ts < now - entry.ts := lt_of_lt_of_le hlt hstale
          linarith
        simp [fetch_price_eur, hc, if_neg hfresh, if_neg hstale2, hup]

/-- Witness for C3: a stale one-entry cache and an upstream response
with no price fields — the cache survives unchanged and the price is
absent. -/
theorem c3_witness :
    (fetch_price_eur (fun _ => some ⟨none, none⟩) 5000 "X" [("X", ⟨5, 0⟩)]).cache =
      [("X", ⟨5, 0⟩)] ∧
    (fetch_price_eur (fun _ => some ⟨none, none⟩) 5000 "X" [("X", ⟨5, 0⟩)]).price = none := by
  have h := c3_failure_leaves_cache_untouched (fun _ => some ⟨none, none⟩) 5000 "X"
    [("X", ⟨5, 0⟩)] rfl
  refine ⟨h.1, h.2.1 ?_⟩
  have hstale : ¬ ((5000:ℚ) < CACHE_TTL) := by norm_num [CACHE_TTL]
  have hc : cacheGet [("X", ⟨5, 0⟩)] "X" = some ⟨5, 0⟩ := rfl
  simp [fetch_price_eur, hc, hstale, fetch_upstream, upstream_price, parse_attempt,
    price_raw, pyTruthy]

lemma parse_eur_example : parse_price_str "12,34 €" = some (1234 / 100) := by
  have h1 : normalize_price "12,34 €" = '1' :: '2' :: '.' :: '3' :: '4' :: [] := by decide
  have h2 : pyFloatParts ('1' :: '2' :: '.' :: '3' :: '4' :: []) = some (12, 34, 2) := by decide
  rw [parse_price_str, h1, pyFloat]
  rw [if_neg (by decide), if_neg (by decide), h2]
  show some (partsToRat (12, 34, 2)) = _
  unfold partsToRat
  norm_num

lemma upstream_eur_example :
    upstream_price (fun _ => some ⟨some "12,34 €", none⟩) "A" = some (1234 / 100) := by
  show parse_attempt ⟨some "12,34 €", none⟩ = _
  unfold parse_attempt price_raw pyTruthy
  rw [if_pos (by decide)]
  show (if ("12,34 €").isEmpty then none else parse_price_str "12,34 €") = _
  rw [if_neg (by decide)]
  exact parse_eur_example

/-- C6: a missing, corrupt or unreadable cache file loads as the
empty cache (the load never raises), and a subsequent successful
price lookup stores a fresh entry into that empty cache. -/
theorem c6_bad_cache_file_fails_open (f : CacheFile)
    (hf : f = CacheFile.missing ∨ f = CacheFile.corrupt) :
    load_cache f = [] ∧
    ∀ (upstream : String → Option PriceResponse) (now : ℚ) (name : String) (p : ℚ),
      upstream_price upstream name = some p →
      cacheGet (fetch_price_eur upstream now name (load_cache f)).cache name =
        some ⟨p, now⟩ := by
  have hl : load_cache f = [] := by rcases hf with h | h <;> subst h <;> rfl
  refine ⟨hl, ?_⟩
  intro u now name p hup
  rw [hl]
  have hfe : fetch_price_eur u now name [] = ⟨some p, [(name, ⟨p, now⟩)], true⟩ := by
    show fetch_upstream u now name [] = _
    unfold fetch_upstream
    rw [hup]
    rfl
  rw [hfe]
  simp [cacheGet]

/-- Witness for C6: a corrupt cache file plus one successful lookup of
`"12,34 €"` repopulates the cache with that price. -/
theorem c6_witness :
    cacheGet (fetch_price_eur (fun _ => some ⟨some "12,34 €", none⟩) 0 "A"
      (load_cache CacheFile.corrupt)).cache "A" = some ⟨1234 / 100, 0⟩ :=
  (c6_bad_cache_file_fails_open CacheFile.corrupt (Or.inr rfl)).2
    (fun _ => some ⟨some "12,34 €", none⟩) 0 "A" (1234 / 100) upstream_eur_example

lemma fetch_fail_eq (upstream : String → Option PriceResponse) (now : ℚ)
    (name : String) (cache : Cache)
    (hu : upstream_price upstream name = none)
    (hst : ∀ entry, cacheGet cache name = some entry → CACHE_TTL ≤ now - entry.ts) :
    fetch_price_eur upstream now name cache = ⟨none, cache, true⟩ := by
  have hup : fetch_upstream upstream now name cache = ⟨none, cache, true⟩ := by
    unfold fetch_upstream
    rw [hu]
  cases hc : cacheGet cache name with
  | none => simp [fetch_price_eur, hc, hup]
  | some entry =>
    have hnf : ¬ now - entry.ts < CACHE_TTL := not_lt.mpr (hst entry hc)
    simp [fetch_price_eur, hc, if_neg hnf, hup]

lemma produced_all_fail (upstream : String → Option PriceResponse) (now : ℚ) :
    ∀ (inv : List (String × ℕ)) (cache : Cache),
      (∀ e ∈ inv, upstream_price upstream e.1 = none) →
      (∀ name entry, cacheGet cache name = some entry → CACHE_TTL ≤ now - entry.ts) →
      produced upstream now inv cache =
        inv.map (fun e => ⟨e.1, e.2, none, none⟩) := by
  intro inv
  induction inv with
  | nil => intro cache _ _; rfl
  | cons e rest ih =>
    intro cache hup hst
    have hf := fetch_fail_eq upstream now e.1 cache (hup e (List.mem_cons_self e rest))
      (fun entry he => hst e.1 entry he)
    rw [produced_cons, hf]
    have hrest := ih cache (fun x hx => hup x (List.mem_cons_of_mem e hx)) hst
    simp [hrest]

/-- C10: when the price lookup fails for every inventory entry, the
valuation still succeeds, its grand total is the number 0.0, and every
row reports an absent price and an absent total. -/
theorem c10_all_lookups_fail_yields_zero (upstream : String → Option PriceResponse)
    (now : ℚ) (file : CacheFile) (inv : List (String × ℕ))
    (hup : ∀ e ∈ inv, upstream_price upstream e.1 = none)
    (hstale : ∀ name entry, cacheGet (load_cache file) name = some entry →
      CACHE_TTL ≤ now - entry.ts) :
    (api_prices upstream now file inv).grand_total = 0 ∧
      ∀ it ∈ (api_prices upstream now file inv).items,
        it.price = none ∧ it.total = none := by
  rw [api_prices_eq]
  have hprod := produced_all_fail upstream now inv (load_cache file) hup hstale
  constructor
  · show round2 _ = 0
    rw [hprod]
    have hnil : (inv.map (fun e => (⟨e.1, e.2, none, none⟩ : Item))).filterMap Item.total
        = [] := by
      rw [List.filterMap_map]
      exact List.filterMap_eq_nil_iff.mpr (fun a _ => rfl)
    rw [hnil]
    exact round2_zero
  · show ∀ it ∈ produced upstream now inv (load_cache file), _
    rw [hprod]
    intro it hit
    obtain ⟨e, _, rfl⟩ := List.mem_map.mp hit
    exact ⟨rfl, rfl⟩

/-- Witness for C10: a single-item inventory with an always-failing
upstream and no cache file still yields grand total 0. -/
theorem c10_witness :
    (api_prices (fun _ => none) 0 CacheFile.missing [("A", 2)]).grand_total = 0 :=
  (c10_all_lookups_fail_yields_zero (fun _ => none) 0 CacheFile.missing [("A", 2)]
    (fun _ _ => rfl)
    (fun name entry h => by simp [load_cache, cacheGet] at h)).1

/-! ## File-system write traces (C4)

`_save_cache` (lines 63-67) writes `price_cache.json.tmp` and then
`os.replace`s it over `price_cache.json`; the snapshot branch of
`api_prices` (lines 113-117) opens the final snapshot path directly
and writes into it.  Writes are modelled as operation traces so that
crash-in-the-middle states can be enumerated.
-/

/-- A file-system mutation the program performs: writing a whole file,
or `os.replace` (atomic rename). -/
inductive FsOp where
  | write (path : String) (content : String)
  | rename (src dst : String)

/-- File-system contents: path to file content, `none` = no file. -/
def FS := String → Option String

/-- Effect of one operation on the file system.  `os.replace`
atomically moves `src` over `dst`. -/
def applyOp (fs : FS) : FsOp → FS
  | FsOp.write p c => fun q => if q = p then some c else fs q
  | FsOp.rename src dst =>
      fun q => if q = dst then fs src else if q = src then none else fs q

/-- Effect of a trace of operations. -/
def applyOps (fs : FS) (ops : List FsOp) : FS := ops.foldl applyOp fs

/-- `CACHE_FILE = "price_cache.json"` (line 43). -/
def CACHE_FILE : String := "price_cache.json"

/-- The write trace of `_save_cache` (lines 63-67): write the
serialized cache to `price_cache.json.tmp`, then `os.replace` it over
`price_cache.json`. -/
def save_cache_ops (content : String) : List FsOp :=
  [FsOp.write (CACHE_FILE ++ ".tmp") content,
   FsOp.rename (CACHE_FILE ++ ".tmp") CACHE_FILE]

/-- The write trace of the snapshot branch of `api_prices` (lines
116-117): `open(filepath, "w")` followed by `json.dump` writes the
serialized response directly into the final snapshot path. -/
def snapshot_write_ops (filepath content : String) : List FsOp :=
  [FsOp.write filepath content]

/-- The file-system states reachable if the process crashes while a
trace runs: before any remaining operation, or in the middle of a
`write`, which may then have produced any prefix of its content.
A `rename` is atomic and has no intermediate state. -/
inductive Crash : FS → List FsOp → FS → Prop
  | now (fs : FS) (ops : List FsOp) : Crash fs ops fs
  | mid (fs : FS) (p c c' rest : String) (ops : List FsOp) :
      c' ++ rest = c →
      Crash fs (FsOp.write p c :: ops) (applyOp fs (FsOp.write p c'))
  | step (fs : FS) (op : FsOp) (ops : List FsOp) (g : FS) :
      Crash (applyOp fs op) ops g → Crash fs (op :: ops) g

/-- A crash while the trace writes `target` never leaves anything but
the old content or the full new content at `target`. -/
def CrashSafe (ops : List FsOp) (target : String) (content : String) : Prop :=
  ∀ (fs g : FS), Crash fs ops g → g target = fs target ∨ g target = some content

/-- The file system with no files, for concrete counterexamples. -/
def emptyFS : FS := fun _ => none

/-- A concrete snapshot path of the shape `api_prices` builds. -/
def examplePath : String := "snapshots/csgo_snapshot_20250101_000000.json"

/-- Counterexample to C4 as stated: the snapshot write is not
performed via write-to-temporary-then-atomic-rename, and a crash in
the middle of it can leave a truncated snapshot file — here the file
holds the strict prefix `"a"` of the content `"ab"`, which is neither
the old state (absent) nor the new content. -/
theorem c4_counterexample :
    ¬ CrashSafe (snapshot_write_ops examplePath "ab") examplePath "ab" := by
  intro h
  have hcrash : Crash emptyFS (snapshot_write_ops examplePath "ab")
      (applyOp emptyFS (FsOp.write examplePath "a")) :=
    Crash.mid emptyFS examplePath "ab" "a" "b" [] rfl
  rcases h emptyFS _ hcrash with hold | hnew
  · rw [show applyOp emptyFS (FsOp.write examplePath "a") examplePath = some "a" from by
      simp [applyOp]] at hold
    exact Option.noConfusion (hold.trans rfl)
  · rw [show applyOp emptyFS (FsOp.write examplePath "a") examplePath = some "a" from by
      simp [applyOp]] at hnew
    have : "a" = "ab" := Option.some_injective _ hnew
    exact absurd this (by decide)

/-- C4 (amended): the cache write goes through the temporary file and
an atomic rename, so a crash anywhere in `_save_cache` leaves
`price_cache.json` either untouched or holding the complete new
content; the snapshot write has no such protection (see the
counterexample). -/
theorem c4_cache_write_crash_safe (content : String) :
    CrashSafe (save_cache_ops content) CACHE_FILE content := by
  intro fs g hcrash
  have htmp : CACHE_FILE ≠ CACHE_FILE ++ ".tmp" := by decide
  cases hcrash with
  | now => exact Or.inl rfl
  | mid _ _ _ c' rest _ hpre =>
    left
    simp [applyOp, if_neg htmp]
  | step _ _ _ _ h2 =>
    cases h2 with
    | now =>
      left
      simp [applyOp, if_neg htmp]
    | step _ _ _ _ h3 =>
      cases h3 with
      | now =>
        right
        simp [applyOp]

/-- Witness for the amended C4: running `_save_cache` to completion
on an empty file system leaves the full content at
`price_cache.json`. -/
theorem c4_witness :
    (applyOps emptyFS (save_cache_ops "x")) CACHE_FILE = emptyFS CACHE_FILE ∨
      (applyOps emptyFS (save_cache_ops "x")) CACHE_FILE = some "x" :=
  c4_cache_write_crash_safe "x" emptyFS (applyOps emptyFS (save_cache_ops "x"))
    (Crash.step _ _ _ _ (Crash.step _ _ _ _ (Crash.now _ _)))

/-! ## Snapshots and history (`api_history`, lines 123-135)

Snapshot filenames are `csgo_snapshot_` + `time.strftime("%Y%m%d_%H%M%S")`
+ `.json` (line 114).  `api_history` globs `snapshots/csgo_snapshot_*.json`,
sorts the paths (Python `sorted`, lexicographic by code point), reads each
file, parses the timestamp back out of the basename with
`datetime.strptime(ts_str, "%Y%m%d_%H%M%S")` and collects
`(formatted ts, grand_total)`; any exception skips the file.

Python strings are modelled as `List Char` (Python `str` is a sequence of
code points and the slicing `basename[14:-5]` is positional).  All paths
share the directory part `snapshots/`, so path order equals basename
order; the model works with basenames.  The directory is an association
list from basename to `some grand_total` (a readable snapshot JSON with
its `grand_total` field) or `none` (a malformed or unreadable file, where
`json.load` or the key access raises).
-/

/-- A Python string viewed as its sequence of code points. -/
abbrev PyStr := List Char

/-- Lexicographic comparison of code-point sequences: the order Python
`sorted` uses on the globbed paths (line 126). -/
def lexLe : PyStr → PyStr → Bool
  | [], _ => true
  | _ :: _, [] => false
  | a :: as, b :: bs =>
    if a.toNat < b.toNat then true
    else if b.toNat < a.toNat then false
    else lexLe as bs

/-- The sort relation on paths. -/
def pathLe (a b : PyStr) : Prop := lexLe a b = true

instance : DecidableRel pathLe := fun a b => instDecidableEqBool (lexLe a b) true

/-- A timestamp as `datetime.strptime` returns it. -/
structure Timestamp where
  year : ℕ
  month : ℕ
  day : ℕ
  hour : ℕ
  minute : ℕ
  second : ℕ
deriving DecidableEq, Repr

/-- Chronological key of a timestamp: later moments have larger keys. -/
def tsKey (t : Timestamp) : ℕ :=
  ((((t.year * 100 + t.month) * 100 + t.day) * 100 + t.hour) * 100 + t.minute) * 100
    + t.second

/-- Model of `datetime.strptime(ts_str, "%Y%m%d_%H%M%S")` (line 131) on
the fixed-width form `YYYYMMDD_HHMMSS` that `time.strftime` produces:
eight digits, an underscore, six digits, with the field ranges strptime
enforces (month 1-12, day 1-31, hour 0-23, minute 0-59, second 0-61;
the exact day-per-month calendar check is not modelled).  Any other
string raises, i.e. returns `none`. -/
def parse_ts (s : PyStr) : Option Timestamp :=
  if s.length = 15 ∧ (s.take 8).all isDig = true ∧ (s.drop 9).all isDig = true ∧
      (s.drop 8).take 1 = ['_'] then
    if 1 ≤ natOfDigits ((s.take 8).take 4) ∧
        1 ≤ natOfDigits (((s.take 8).drop 4).take 2) ∧
        natOfDigits (((s.take 8).drop 4).take 2) ≤ 12 ∧
        1 ≤ natOfDigits ((s.take 8).drop 6) ∧ natOfDigits ((s.take 8).drop 6) ≤ 31 ∧
        natOfDigits ((s.drop 9).take 2) ≤ 23 ∧
        natOfDigits (((s.drop 9).drop 2).take 2) ≤ 59 ∧
        natOfDigits ((s.drop 9).drop 4) ≤ 61 then
      some ⟨natOfDigits ((s.take 8).take 4), natOfDigits (((s.take 8).drop 4).take 2),
        natOfDigits ((s.take 8).drop 6), natOfDigits ((s.drop 9).take 2),
        natOfDigits (((s.drop 9).drop 2).take 2), natOfDigits ((s.drop 9).drop 4)⟩
    else none
  else none

/-- The character of a decimal digit. -/
def digitChar (n : ℕ) : Char := Char.ofNat (48 + n)

/-- Zero-padded fixed-width decimal rendering, as `strftime` produces
for `%Y`, `%m`, `%d`, `%H`, `%M`, `%S`. -/
def padNum : ℕ → ℕ → PyStr
  | 0, _ => []
  | w + 1, n => padNum w (n / 10) ++ [digitChar (n % 10)]

/-- `time.strftime("%Y%m%d_%H%M%S")` (line 114). -/
def fmt_ts_file (t : Timestamp) : PyStr :=
  (padNum 4 t.year ++ (padNum 2 t.month ++ padNum 2 t.day)) ++ '_' ::
    (padNum 2 t.hour ++ (padNum 2 t.minute ++ padNum 2 t.second))

/-- `ts.strftime("%Y-%m-%d %H:%M")` (line 132), the display form in the
history response. -/
def fmt_ts (t : Timestamp) : PyStr :=
  padNum 4 t.year ++ '-' :: (padNum 2 t.month ++ '-' :: (padNum 2 t.day ++ ' ' ::
    (padNum 2 t.hour ++ ':' :: padNum 2 t.minute)))

/-- Timestamps that wall-clock `time.strftime` can emit (four-digit
year, valid field ranges). -/
def ValidTs (t : Timestamp) : Prop :=
  1 ≤ t.year ∧ t.year ≤ 9999 ∧ 1 ≤ t.month ∧ t.month ≤ 12 ∧ 1 ≤ t.day ∧ t.day ≤ 31 ∧
    t.hour ≤ 23 ∧ t.minute ≤ 59 ∧ t.second ≤ 61

/-- The basename head `csgo_snapshot_` of the glob pattern (line 45). -/
def snapHead : PyStr := "csgo_snapshot_".data

/-- The basename tail `.json` of the glob pattern. -/
def snapTail : PyStr := ".json".data

/-- Whether a basename matches the glob `csgo_snapshot_*.json`. -/
def globMatch (p : PyStr) : Bool :=
  decide (p.take 14 = snapHead) && decide (p.drop (p.length - 5) = snapTail) &&
    decide (19 ≤ p.length)

/-- `os.path.basename(path)[len("csgo_snapshot_"):-5]` (line 130). -/
def tsStrOf (p : PyStr) : PyStr := (p.drop 14).take (p.length - 19)

/-- The snapshot directory: basename to readable grand total, or
`none` for a malformed or unreadable file. -/
abbrev Dir := List (PyStr × Option ℚ)

/-- Reading the file named `p` from the directory. -/
def findFile : Dir → PyStr → Option (Option ℚ)
  | [], _ => none
  | e :: rest, p => if e.1 = p then some e.2 else findFile rest p

/-- The basenames the glob returns (line 126). -/
def matchedPaths (dir : Dir) : List PyStr := (dir.map Prod.fst).filter globMatch

/-- `sorted(glob.glob(SNAPSHOT_GLOB))` (line 126). -/
def sortedPaths (dir : Dir) : List PyStr := List.insertionSort pathLe (matchedPaths dir)

/-- The body of the history loop for one path (lines 127-134): read the
file and its `grand_total`, parse the timestamp out of the basename;
any failure skips the file. -/
def decodeSnapshot (dir : Dir) (p : PyStr) : Option (Timestamp × ℚ) :=
  match findFile dir p with
  | some (some gt) => (parse_ts (tsStrOf p)).map (fun t => (t, gt))
  | _ => none

/-- The history entries `api_history` collects, before display
formatting, in output order. -/
def api_history_records (dir : Dir) : List (Timestamp × ℚ) :=
  (sortedPaths dir).filterMap (decodeSnapshot dir)

/-- The `/api/history` response list (line 132): each record with its
timestamp rendered as `%Y-%m-%d %H:%M`. -/
def api_history (dir : Dir) : List (PyStr × ℚ) :=
  (api_history_records dir).map (fun r => (fmt_ts r.1, r.2))

/-- The filename the snapshot branch builds (line 114). -/
def snapshot_filename (t : Timestamp) : PyStr := snapHead ++ fmt_ts_file t ++ snapTail

/-- The snapshot write of lines 113-117: (over)write the file named
after the current time with the serialized response, of which the
history reader later uses the `grand_total` field. -/
def save_snapshot (dir : Dir) (t : Timestamp) (gt : ℚ) : Dir :=
  (snapshot_filename t, some gt) :: dir.filter (fun e => decide (e.1 ≠ snapshot_filename t))

/-! ## Order lemmas for the path sort -/

lemma lexLe_total : ∀ a b : PyStr, lexLe a b = true ∨ lexLe b a = true := by
  intro a
  induction a with
  | nil => intro b; left; rfl
  | cons x xs ih =>
    intro b
    cases b with
    | nil => right; rfl
    | cons y ys =>
      by_cases h1 : x.toNat < y.toNat
      · left; rw [lexLe, if_pos h1]
      · by_cases h2 : y.toNat < x.toNat
        · right; rw [lexLe, if_pos h2]
        · rcases ih ys with h | h
          · left; rw [lexLe, if_neg h1, if_neg h2]; exact h
          · right; rw [lexLe, if_neg h2, if_neg h1]; exact h

lemma lexLe_trans : ∀ a b c : PyStr,
    lexLe a b = true → lexLe b c = true → lexLe a c = true := by
  intro a
  induction a with
  | nil => intro b c _ _; rfl
  | cons x xs ih =>
    intro b c hab hbc
    cases b with
    | nil => exact absurd hab (by simp [lexLe])
    | cons y ys =>
      cases c with
      | nil => exact absurd hbc (by simp [lexLe])
      | cons z zs =>
        rw [lexLe] at hab hbc ⊢
        by_cases hxy : x.toNat < y.toNat
        · by_cases hyz : y.toNat < z.toNat
          · rw [if_pos (hxy.trans hyz)]
          · by_cases hzy : z.toNat < y.toNat
            · rw [if_neg hyz, if_pos hzy] at hbc
              exact absurd hbc (by simp)
            · rw [if_pos (show x.toNat < z.toNat by omega)]
        · by_cases hyx : y.toNat < x.toNat
          · rw [if_pos hyx] at hab
            rw [if_neg hxy] at hab
            exact absurd hab (by simp)
          · rw [if_neg hxy, if_neg hyx] at hab
            by_cases hyz : y.toNat < z.toNat
            · rw [if_pos (show x.toNat < z.toNat by omega)]
            · by_cases hzy : z.toNat < y.toNat
              · rw [if_neg hyz, if_pos hzy] at hbc
                exact absurd hbc (by simp)
              · rw [if_neg hyz, if_neg hzy] at hbc
                rw [if_neg (show ¬ x.toNat < z.toNat by omega),
                  if_neg (show ¬ z.toNat < x.toNat by omega)]
                exact ih ys zs hab hbc

instance : IsTotal PyStr pathLe := ⟨lexLe_total⟩

instance : IsTrans PyStr pathLe := ⟨fun a b c => lexLe_trans a b c⟩

lemma lexLe_append_left : ∀ (pre a b : PyStr), lexLe (pre ++ a) (pre ++ b) = lexLe a b := by
  intro pre
  induction pre with
  | nil => intro a b; rfl
  | cons c cs ih =>
    intro a b
    show lexLe (c :: (cs ++ a)) (c :: (cs ++ b)) = _
    rw [lexLe, if_neg (lt_irrefl c.toNat), if_neg (lt_irrefl c.toNat), ih]

/-! ## Digit-string arithmetic -/

lemma isDig_bounds (c : Char) (h : isDig c = true) : 48 ≤ c.toNat ∧ c.toNat ≤ 57 := by
  simpa [isDig] using h

lemma natOfDigits_acc (l : PyStr) : ∀ a : ℕ,
    l.foldl (fun x c => 10 * x + vch c) a = a * 10 ^ l.length + natOfDigits l := by
  induction l with
  | nil => intro a; simp [natOfDigits]
  | cons c l ih =>
    intro a
    show l.foldl _ (10 * a + vch c) = _
    rw [ih (10 * a + vch c)]
    have hc : natOfDigits (c :: l) = vch c * 10 ^ l.length + natOfDigits l := by
      show l.foldl _ (10 * 0 + vch c) = _
      rw [ih (10 * 0 + vch c)]
      ring
    rw [hc, List.length_cons]
    ring

lemma natOfDigits_cons (c : Char) (l : PyStr) :
    natOfDigits (c :: l) = vch c * 10 ^ l.length + natOfDigits l := by
  show l.foldl _ (10 * 0 + vch c) = _
  rw [natOfDigits_acc l (10 * 0 + vch c)]
  ring

lemma natOfDigits_append (l1 l2 : PyStr) :
    natOfDigits (l1 ++ l2) = natOfDigits l1 * 10 ^ l2.length + natOfDigits l2 := by
  show (l1 ++ l2).foldl _ 0 = _
  rw [List.foldl_append, natOfDigits_acc l2]
  rfl

lemma natOfDigits_split (l : PyStr) (n : ℕ) :
    natOfDigits l = natOfDigits (l.take n) * 10 ^ (l.length - n) + natOfDigits (l.drop n) := by
  conv_lhs => rw [← List.take_append_drop n l]
  rw [natOfDigits_append, List.length_drop]

lemma natOfDigits_lt (l : PyStr) (h : l.all isDig = true) :
    natOfDigits l < 10 ^ l.length := by
  induction l with
  | nil => exact Nat.zero_lt_one
  | cons c l ih =>
    rw [List.all_cons, Bool.and_eq_true] at h
    have hc := isDig_bounds c h.1
    have hv : vch c ≤ 9 := by unfold vch; omega
    have hrest := ih h.2
    rw [natOfDigits_cons, List.length_cons, pow_succ]
    calc vch c * 10 ^ l.length + natOfDigits l
        < vch c * 10 ^ l.length + 10 ^ l.length := by omega
      _ = (vch c + 1) * 10 ^ l.length := by ring
      _ ≤ 10 * 10 ^ l.length := Nat.mul_le_mul_right _ (by omega)
      _ = 10 ^ l.length * 10 := by ring

lemma natOfDigits_lt_of_head (x y : Char) (xs ys : PyStr)
    (hlen : xs.length = ys.length) (hx : xs.all isDig = true)
    (hdx : isDig x = true) (hdy : isDig y = true) (hxy : x.toNat < y.toNat) :
    natOfDigits (x :: xs) < natOfDigits (y :: ys) := by
  have hbx := isDig_bounds x hdx
  have hby := isDig_bounds y hdy
  have hvxy : vch x + 1 ≤ vch y := by unfold vch; omega
  have hub := natOfDigits_lt xs hx
  rw [natOfDigits_cons, natOfDigits_cons, hlen]
  calc vch x * 10 ^ ys.length + natOfDigits xs
      < vch x * 10 ^ ys.length + 10 ^ ys.length := by rw [hlen] at hub; omega
    _ = (vch x + 1) * 10 ^ ys.length := by ring
    _ ≤ vch y * 10 ^ ys.length := Nat.mul_le_mul_right _ hvxy
    _ ≤ vch y * 10 ^ ys.length + natOfDigits ys := Nat.le_add_right _ _

lemma char_eq_of_toNat_eq (a b : Char) (h : a.toNat = b.toNat) : a = b :=
  Char.eq_of_val_eq (UInt32.toNat.inj h)

lemma lexLe_digit_blocks : ∀ (a b r s : PyStr), a.length = b.length →
    a.all isDig = true → b.all isDig = true →
    lexLe (a ++ r) (b ++ s) = true →
    natOfDigits a < natOfDigits b ∨ (a = b ∧ lexLe r s = true) := by
  intro a
  induction a with
  | nil =>
    intro b r s hlen _ _ hle
    have hb : b = [] := List.length_eq_zero.mp hlen.symm
    subst hb
    exact Or.inr ⟨rfl, hle⟩
  | cons x xs ih =>
    intro b r s hlen ha hb hle
    cases b with
    | nil => simp at hlen
    | cons y ys =>
      rw [List.all_cons, Bool.and_eq_true] at ha hb
      rw [List.cons_append, List.cons_append, lexLe] at hle
      by_cases hxy : x.toNat < y.toNat
      · exact Or.inl (natOfDigits_lt_of_head x y xs ys (by simpa using hlen) ha.2 ha.1
          hb.1 hxy)
      · by_cases hyx : y.toNat < x.toNat
        · rw [if_neg hxy, if_pos hyx] at hle
          exact absurd hle (by simp)
        · rw [if_neg hxy, if_neg hyx] at hle
          have hxeqy : x = y := char_eq_of_toNat_eq x y (by omega)
          subst hxeqy
          rcases ih ys r s (by simpa using hlen) ha.2 hb.2 hle with h | ⟨heq, hrs⟩
          · left
            rw [natOfDigits_cons, natOfDigits_cons,
              show xs.length = ys.length from by simpa using hlen]
            omega
          · right
            rw [heq]
            exact ⟨rfl, hrs⟩

/-! ## Structure of parsed timestamp strings -/

lemma parse_ts_some (s : PyStr) (t : Timestamp) (h : parse_ts s = some t) :
    s.length = 15 ∧ (s.take 8).all isDig = true ∧ (s.drop 9).all isDig = true ∧
      (s.drop 8).take 1 = ['_'] ∧
      tsKey t = natOfDigits (s.take 8) * 1000000 + natOfDigits (s.drop 9) := by
  unfold parse_ts at h
  split_ifs at h with h1 h2
  · obtain ⟨hlen, hA, hB, hu⟩ := h1
    refine ⟨hlen, hA, hB, hu, ?_⟩
    have ht : t = ⟨natOfDigits ((s.take 8).take 4),
        natOfDigits (((s.take 8).drop 4).take 2), natOfDigits ((s.take 8).drop 6),
        natOfDigits ((s.drop 9).take 2), natOfDigits (((s.drop 9).drop 2).take 2),
        natOfDigits ((s.drop 9).drop 4)⟩ := (Option.some_inj.mp h).symm
    have hAlen : (s.take 8).length = 8 := by simp [List.length_take, hlen]
    have hBlen : (s.drop 9).length = 6 := by simp [List.length_drop, hlen]
    have hA1 : natOfDigits (s.take 8) = natOfDigits ((s.take 8).take 4) * 10 ^ 4 +
        natOfDigits ((s.take 8).drop 4) := by
      rw [natOfDigits_split (s.take 8) 4, hAlen]
    have hA2 : natOfDigits ((s.take 8).drop 4) =
        natOfDigits (((s.take 8).drop 4).take 2) * 10 ^ 2 +
          natOfDigits (((s.take 8).drop 4).drop 2) := by
      rw [natOfDigits_split ((s.take 8).drop 4) 2, List.length_drop, hAlen]
    have hA3 : ((s.take 8).drop 4).drop 2 = (s.take 8).drop 6 := by
      rw [List.drop_drop]
    have hB1 : natOfDigits (s.drop 9) = natOfDigits ((s.drop 9).take 2) * 10 ^ 4 +
        natOfDigits ((s.drop 9).drop 2) := by
      rw [natOfDigits_split (s.drop 9) 2, hBlen]
    have hB2 : natOfDigits ((s.drop 9).drop 2) =
        natOfDigits (((s.drop 9).drop 2).take 2) * 10 ^ 2 +
          natOfDigits (((s.drop 9).drop 2).drop 2) := by
      rw [natOfDigits_split ((s.drop 9).drop 2) 2, List.length_drop, hBlen]
    have hB3 : ((s.drop 9).drop 2).drop 2 = (s.drop 9).drop 4 := by
      rw [List.drop_drop]
    rw [ht]
    unfold tsKey
    rw [hA1, hA2, hA3, hB1, hB2, hB3]
    norm_num
    ring

lemma globMatch_decomp (p : PyStr) (h : globMatch p = true) :
    p = snapHead ++ (tsStrOf p ++ snapTail) := by
  unfold globMatch at h
  rw [Bool.and_eq_true, Bool.and_eq_true] at h
  obtain ⟨⟨h1, h2⟩, h3⟩ := h
  rw [decide_eq_true_iff] at h1 h2 h3
  conv_lhs => rw [← List.take_append_drop 14 p]
  rw [h1]
  congr 1
  conv_lhs => rw [← List.take_append_drop (p.length - 19) (p.drop 14)]
  show _ = tsStrOf p ++ snapTail
  unfold tsStrOf
  congr 1
  rw [List.drop_drop, show 14 + (p.length - 19) = p.length - 5 from by omega]
  exact h2

lemma tsKey_mono (p q : PyStr) (t1 t2 : Timestamp)
    (hgp : globMatch p = true) (hgq : globMatch q = true)
    (hp : parse_ts (tsStrOf p) = some t1) (hq : parse_ts (tsStrOf q) = some t2)
    (hle : lexLe p q = true) : tsKey t1 ≤ tsKey t2 := by
  obtain ⟨hlen1, hA1, hB1, hu1, hk1⟩ := parse_ts_some _ _ hp
  obtain ⟨hlen2, hA2, hB2, hu2, hk2⟩ := parse_ts_some _ _ hq
  rw [globMatch_decomp p hgp, globMatch_decomp q hgq, lexLe_append_left] at hle
  have hsplit : ∀ m : PyStr, m.length = 15 → (m.drop 8).take 1 = ['_'] →
      m = m.take 8 ++ '_' :: m.drop 9 := by
    intro m hlen hu
    conv_lhs => rw [← List.take_append_drop 8 m]
    congr 1
    conv_lhs => rw [← List.take_append_drop 1 (m.drop 8)]
    rw [hu, List.drop_drop]
    rfl
  rw [hsplit _ hlen1 hu1, hsplit _ hlen2 hu2] at hle
  rw [List.append_assoc, List.append_assoc, List.cons_append, List.cons_append] at hle
  have hAlen1 : ((tsStrOf p).take 8).length = 8 := by simp [List.length_take, hlen1]
  have hAlen2 : ((tsStrOf q).take 8).length = 8 := by simp [List.length_take, hlen2]
  have hBlen1 : ((tsStrOf p).drop 9).length = 6 := by simp [List.length_drop, hlen1]
  have hBlen2 : ((tsStrOf q).drop 9).length = 6 := by simp [List.length_drop, hlen2]
  have hBbound1 : natOfDigits ((tsStrOf p).drop 9) < 1000000 := by
    have hb := natOfDigits_lt _ hB1
    rw [hBlen1] at hb
    norm_num at hb
    exact hb
  have hBbound2 : natOfDigits ((tsStrOf q).drop 9) < 1000000 := by
    have hb := natOfDigits_lt _ hB2
    rw [hBlen2] at hb
    norm_num at hb
    exact hb
  rcases lexLe_digit_blocks ((tsStrOf p).take 8) ((tsStrOf q).take 8) _ _
      (hAlen1.trans hAlen2.symm) hA1 hA2 hle with hlt | ⟨heq, hrest⟩
  · rw [hk1, hk2]
    omega
  · rw [lexLe, if_neg (lt_irrefl _), if_neg (lt_irrefl _)] at hrest
    rcases lexLe_digit_blocks ((tsStrOf p).drop 9) ((tsStrOf q).drop 9) _ _
        (hBlen1.trans hBlen2.symm) hB1 hB2 hrest with hlt2 | ⟨heq2, _⟩
    · rw [hk1, hk2, heq]
      omega
    · rw [hk1, hk2, heq, heq2]

/-! ## History listing: order, completeness, soundness (C5) -/

lemma findFile_eq_some_of_mem (dir : Dir) (hnodup : (dir.map Prod.fst).Nodup)
    (p : PyStr) (c : Option ℚ) (hmem : (p, c) ∈ dir) : findFile dir p = some c := by
  induction dir with
  | nil => cases hmem
  | cons e rest ih =>
    rw [List.map_cons, List.nodup_cons] at hnodup
    rcases List.mem_cons.mp hmem with h | h
    · rw [← h]
      simp [findFile]
    · have hne : e.1 ≠ p := by
        intro he
        exact hnodup.1 (he ▸ List.mem_map_of_mem Prod.fst h)
      simp [findFile, if_neg hne, ih hnodup.2 h]

lemma findFile_mem (dir : Dir) (p : PyStr) (c : Option ℚ)
    (h : findFile dir p = some c) : (p, c) ∈ dir := by
  induction dir with
  | nil => exact Option.noConfusion h
  | cons e rest ih =>
    unfold findFile at h
    split_ifs at h with he
    · have h2 : e.2 = c := Option.some_inj.mp h
      exact List.mem_cons.mpr (Or.inl (by rw [← he, ← h2]))
    · exact List.mem_cons_of_mem e (ih h)

lemma decodeSnapshot_some (dir : Dir) (p : PyStr) (r : Timestamp × ℚ)
    (h : decodeSnapshot dir p = some r) :
    findFile dir p = some (some r.2) ∧ parse_ts (tsStrOf p) = some r.1 := by
  unfold decodeSnapshot at h
  cases hf : findFile dir p with
  | none => rw [hf] at h; exact Option.noConfusion h
  | some c =>
    cases c with
    | none => rw [hf] at h; exact Option.noConfusion h
    | some gt =>
      rw [hf] at h
      cases hp : parse_ts (tsStrOf p) with
      | none => rw [hp] at h; exact Option.noConfusion h
      | some t =>
        rw [hp] at h
        obtain rfl := Option.some_inj.mp h
        exact ⟨rfl, rfl⟩


lemma mem_sortedPaths_glob (dir : Dir) (p : PyStr) (h : p ∈ sortedPaths dir) :
    globMatch p = true := by
  have hm : p ∈ matchedPaths dir := ((List.perm_insertionSort pathLe _).mem_iff).mp h
  exact List.of_mem_filter hm

/-- C5: the history listing takes exactly the snapshot files matching
the glob pattern, sorted lexicographically by filename; each entry's
timestamp is parsed out of the filename and its `grand_total` out of
the file; the result is in non-decreasing timestamp order (filename
order coincides with chronological order for the fixed-width pattern);
malformed or unreadable files are skipped instead of failing the
listing. -/
theorem c5_history_sorted_and_skips (dir : Dir)
    (hnodup : (dir.map Prod.fst).Nodup) :
    List.Pairwise (fun r1 r2 => tsKey r1.1 ≤ tsKey r2.1) (api_history_records dir) ∧
    (∀ p gt t, (p, some gt) ∈ dir → globMatch p = true →
      parse_ts (tsStrOf p) = some t → (t, gt) ∈ api_history_records dir) ∧
    (∀ r ∈ api_history_records dir,
      ∃ p, (p, some r.2) ∈ dir ∧ globMatch p = true ∧
        parse_ts (tsStrOf p) = some r.1) := by
  refine ⟨?_, ?_, ?_⟩
  · have hsorted : List.Pairwise pathLe (sortedPaths dir) :=
      List.sorted_insertionSort pathLe (matchedPaths dir)
    have hstrong : List.Pairwise
        (fun a b => pathLe a b ∧ globMatch a = true ∧ globMatch b = true)
        (sortedPaths dir) := by
      refine hsorted.imp_of_mem ?_
      intro a b ha hb hr
      exact ⟨hr, mem_sortedPaths_glob dir a ha, mem_sortedPaths_glob dir b hb⟩
    refine hstrong.filterMap (decodeSnapshot dir) ?_
    intro a b hab x hx y hy
    obtain ⟨_, hpa⟩ := decodeSnapshot_some dir a x hx
    obtain ⟨_, hpb⟩ := decodeSnapshot_some dir b y hy
    exact tsKey_mono a b x.1 y.1 hab.2.1 hab.2.2 hpa hpb hab.1
  · intro p gt t hmem hg hp
    have hp1 : p ∈ matchedPaths dir :=
      List.mem_filter.mpr ⟨List.mem_map_of_mem Prod.fst hmem, hg⟩
    have hp2 : p ∈ sortedPaths dir :=
      ((List.perm_insertionSort pathLe _).mem_iff).mpr hp1
    refine List.mem_filterMap.mpr ⟨p, hp2, ?_⟩
    unfold decodeSnapshot
    rw [findFile_eq_some_of_mem dir hnodup p (some gt) hmem, hp]
    rfl
  · intro r hr
    obtain ⟨p, hps, hdec⟩ := List.mem_filterMap.mp hr
    obtain ⟨hf, hp⟩ := decodeSnapshot_some dir p r hdec
    exact ⟨p, findFile_mem dir p (some r.2) hf, mem_sortedPaths_glob dir p hps, hp⟩

/-- Witness for C5 at a concrete directory: one well-formed snapshot
file, whose record appears in the listing. -/
theorem c5_witness :
    ((⟨2025, 1, 1, 0, 0, 0⟩ : Timestamp), (5 : ℚ)) ∈
      api_history_records [("csgo_snapshot_20250101_000000.json".data, some 5)] :=
  (c5_history_sorted_and_skips
      [("csgo_snapshot_20250101_000000.json".data, some 5)] (by simp)).2.1
    "csgo_snapshot_20250101_000000.json".data 5 ⟨2025, 1, 1, 0, 0, 0⟩
    (List.mem_cons_self _ _) (by decide) (by decide)

/-! ## Rendering timestamps and reading them back (C8) -/

lemma padNum_length : ∀ (w n : ℕ), (padNum w n).length = w := by
  intro w
  induction w with
  | zero => intro n; rfl
  | succ w ih =>
    intro n
    rw [padNum, List.length_append, ih (n / 10)]
    rfl

lemma digitChar_isDig : ∀ m : ℕ, m < 10 → isDig (digitChar m) = true := by decide

lemma digitChar_vch : ∀ m : ℕ, m < 10 → vch (digitChar m) = m := by decide

lemma padNum_all_isDig : ∀ (w n : ℕ), (padNum w n).all isDig = true := by
  intro w
  induction w with
  | zero => intro n; rfl
  | succ w ih =>
    intro n
    rw [padNum, List.all_append, ih (n / 10), Bool.true_and]
    simp [digitChar_isDig (n % 10) (Nat.mod_lt n (by omega))]

lemma natOfDigits_padNum : ∀ (w n : ℕ), n < 10 ^ w → natOfDigits (padNum w n) = n := by
  intro w
  induction w with
  | zero =>
    intro n h
    have hn : n = 0 := by simpa using h
    rw [hn]
    rfl
  | succ w ih =>
    intro n h
    rw [padNum, natOfDigits_append]
    have hdiv : n / 10 < 10 ^ w := by
      rw [pow_succ] at h
      omega
    rw [ih (n / 10) hdiv]
    have hsingle : natOfDigits [digitChar (n % 10)] = n % 10 := by
      show 10 * 0 + vch (digitChar (n % 10)) = n % 10
      rw [digitChar_vch (n % 10) (Nat.mod_lt n (by omega))]
      omega
    rw [hsingle]
    show n / 10 * 10 ^ 1 + n % 10 = n
    omega

lemma fmt_ts_file_length (t : Timestamp) : (fmt_ts_file t).length = 15 := by
  unfold fmt_ts_file
  simp [List.length_append, padNum_length]

lemma parse_fmt_roundtrip (t : Timestamp) (h : ValidTs t) :
    parse_ts (fmt_ts_file t) = some t := by
  obtain ⟨hy1, hy2, hmo1, hmo2, hd1, hd2, hh, hmi, hs⟩ := h
  have hlenA : (padNum 4 t.year ++ (padNum 2 t.month ++ padNum 2 t.day)).length = 8 := by
    simp [List.length_append, padNum_length]
  have hAeq : (fmt_ts_file t).take 8 =
      padNum 4 t.year ++ (padNum 2 t.month ++ padNum 2 t.day) := by
    unfold fmt_ts_file
    exact List.take_left' hlenA
  have hBdrop : (fmt_ts_file t).drop 8 =
      '_' :: (padNum 2 t.hour ++ (padNum 2 t.minute ++ padNum 2 t.second)) := by
    unfold fmt_ts_file
    exact List.drop_left' hlenA
  have hBeq : (fmt_ts_file t).drop 9 =
      padNum 2 t.hour ++ (padNum 2 t.minute ++ padNum 2 t.second) := by
    have h91 : ((fmt_ts_file t).drop 8).drop 1 = (fmt_ts_file t).drop 9 := by
      rw [List.drop_drop]
    rw [← h91, hBdrop]
    rfl
  have hu : ((fmt_ts_file t).drop 8).take 1 = ['_'] := by rw [hBdrop]; rfl
  have hA4 : ((fmt_ts_file t).take 8).take 4 = padNum 4 t.year := by
    rw [hAeq]
    exact List.take_left' (padNum_length 4 t.year)
  have hAdrop : ((fmt_ts_file t).take 8).drop 4 = padNum 2 t.month ++ padNum 2 t.day := by
    rw [hAeq]
    exact List.drop_left' (padNum_length 4 t.year)
  have hAmo : (((fmt_ts_file t).take 8).drop 4).take 2 = padNum 2 t.month := by
    rw [hAdrop]
    exact List.take_left' (padNum_length 2 t.month)
  have hAd : ((fmt_ts_file t).take 8).drop 6 = padNum 2 t.day := by
    have h42 : (((fmt_ts_file t).take 8).drop 4).drop 2 = ((fmt_ts_file t).take 8).drop 6 := by
      rw [List.drop_drop]
    rw [← h42, hAdrop]
    exact List.drop_left' (padNum_length 2 t.month)
  have hBh : ((fmt_ts_file t).drop 9).take 2 = padNum 2 t.hour := by
    rw [hBeq]
    exact List.take_left' (padNum_length 2 t.hour)
  have hBdrop2 : ((fmt_ts_file t).drop 9).drop 2 =
      padNum 2 t.minute ++ padNum 2 t.second := by
    rw [hBeq]
    exact List.drop_left' (padNum_length 2 t.hour)
  have hBmi : (((fmt_ts_file t).drop 9).drop 2).take 2 = padNum 2 t.minute := by
    rw [hBdrop2]
    exact List.take_left' (padNum_length 2 t.minute)
  have hBs : ((fmt_ts_file t).drop 9).drop 4 = padNum 2 t.second := by
    have h22 : (((fmt_ts_file t).drop 9).drop 2).drop 2 = ((fmt_ts_file t).drop 9).drop 4 := by
      rw [List.drop_drop]
    rw [← h22, hBdrop2]
    exact List.drop_left' (padNum_length 2 t.minute)
  have hny : natOfDigits (padNum 4 t.year) = t.year :=
    natOfDigits_padNum 4 t.year (by norm_num; omega)
  have hnmo : natOfDigits (padNum 2 t.month) = t.month :=
    natOfDigits_padNum 2 t.month (by norm_num; omega)
  have hnd : natOfDigits (padNum 2 t.day) = t.day :=
    natOfDigits_padNum 2 t.day (by norm_num; omega)
  have hnh : natOfDigits (padNum 2 t.hour) = t.hour :=
    natOfDigits_padNum 2 t.hour (by norm_num; omega)
  have hnmi : natOfDigits (padNum 2 t.minute) = t.minute :=
    natOfDigits_padNum 2 t.minute (by norm_num; omega)
  have hns : natOfDigits (padNum 2 t.second) = t.second :=
    natOfDigits_padNum 2 t.second (by norm_num; omega)
  unfold parse_ts
  rw [if_pos, if_pos]
  · rw [hA4, hAmo, hAd, hBh, hBmi, hBs, hny, hnmo, hnd, hnh, hnmi, hns]
  · rw [hA4, hAmo, hAd, hBh, hBmi, hBs, hny, hnmo, hnd, hnh, hnmi, hns]
    refine ⟨by omega, by omega, by omega, by omega, by omega, by omega, by omega, by omega⟩
  · refine ⟨fmt_ts_file_length t, ?_, ?_, hu⟩
    · rw [hAeq]
      simp [List.all_append, padNum_all_isDig]
    · rw [hBeq]
      simp [List.all_append, padNum_all_isDig]

/-! ## Saving a snapshot and finding it in the history (C8) -/

lemma snapHead_length : snapHead.length = 14 := by decide

lemma snapshot_filename_facts (t : Timestamp) :
    globMatch (snapshot_filename t) = true ∧
      tsStrOf (snapshot_filename t) = fmt_ts_file t := by
  have hassoc : snapshot_filename t = snapHead ++ (fmt_ts_file t ++ snapTail) := by
    unfold snapshot_filename
    rw [List.append_assoc]
  have hlen : (snapshot_filename t).length = 34 := by
    rw [hassoc, List.length_append, List.length_append, snapHead_length,
      fmt_ts_file_length]
    rfl
  have htake : (snapshot_filename t).take 14 = snapHead := by
    rw [hassoc]
    exact List.take_left' snapHead_length
  have hdrop14 : (snapshot_filename t).drop 14 = fmt_ts_file t ++ snapTail := by
    rw [hassoc]
    exact List.drop_left' snapHead_length
  have hts : tsStrOf (snapshot_filename t) = fmt_ts_file t := by
    unfold tsStrOf
    rw [hdrop14, hlen]
    exact List.take_left' (fmt_ts_file_length t)
  have hdroptail : (snapshot_filename t).drop ((snapshot_filename t).length - 5) =
      snapTail := by
    rw [hlen]
    show (snapshot_filename t).drop 29 = snapTail
    unfold snapshot_filename
    refine List.drop_left' ?_
    rw [List.length_append, snapHead_length, fmt_ts_file_length]
  refine ⟨?_, hts⟩
  unfold globMatch
  rw [htake, hdroptail, hlen]
  simp

lemma save_snapshot_nodup (dir : Dir) (t : Timestamp) (gt : ℚ)
    (h : (dir.map Prod.fst).Nodup) :
    ((save_snapshot dir t gt).map Prod.fst).Nodup := by
  unfold save_snapshot
  rw [List.map_cons, List.nodup_cons]
  constructor
  · intro hmem
    obtain ⟨e, he, hfst⟩ := List.mem_map.mp hmem
    have hne := List.of_mem_filter he
    rw [decide_eq_true_iff] at hne
    exact hne hfst
  · exact List.Nodup.sublist (List.Sublist.map Prod.fst (List.filter_sublist dir)) h

lemma decode_save_self (dir : Dir) (t : Timestamp) (gt : ℚ) (hvalid : ValidTs t) :
    decodeSnapshot (save_snapshot dir t gt) (snapshot_filename t) = some (t, gt) := by
  have hff : findFile (save_snapshot dir t gt) (snapshot_filename t) = some (some gt) := by
    unfold save_snapshot findFile
    rw [if_pos rfl]
  unfold decodeSnapshot
  rw [hff, (snapshot_filename_facts t).2, parse_fmt_roundtrip t hvalid]
  rfl

lemma decode_save_other (dir : Dir) (t : Timestamp) (gt : ℚ) (p : PyStr)
    (hp : p ≠ snapshot_filename t) (r : Timestamp × ℚ)
    (h : decodeSnapshot (save_snapshot dir t gt) p = some r) :
    ∃ c, (p, c) ∈ dir ∧ parse_ts (tsStrOf p) = some r.1 := by
  obtain ⟨hf, hparse⟩ := decodeSnapshot_some _ _ _ h
  unfold save_snapshot findFile at hf
  rw [if_neg (fun he => hp he.symm)] at hf
  exact ⟨some r.2, List.mem_of_mem_filter (findFile_mem _ _ _ hf), hparse⟩

lemma countP_filterMap_count (f : PyStr → Option (Timestamp × ℚ))
    (pr : Timestamp × ℚ → Bool) (fname : PyStr) (entry : Timestamp × ℚ)
    (hdec : f fname = some entry) (hpr : pr entry = true) :
    ∀ paths : List PyStr,
      (∀ p ∈ paths, p ≠ fname → ∀ r, f p = some r → pr r = false) →
      (paths.filterMap f).countP pr = paths.countP (fun q => decide (q = fname)) := by
  intro paths
  induction paths with
  | nil => intro _; rfl
  | cons p rest ih =>
    intro hp
    have hrest := ih (fun q hq => hp q (List.mem_cons_of_mem p hq))
    by_cases hpf : p = fname
    · subst hpf
      simp [List.filterMap_cons, hdec, List.countP_cons, hpr, hrest]
    · cases hf : f p with
      | none =>
        simp [List.filterMap_cons, hf, List.countP_cons, hpf, hrest]
      | some r =>
        have hpr0 : pr r = false := hp p (List.mem_cons_self _ _) hpf r hf
        simp [List.filterMap_cons, hf, List.countP_cons, hpr0, hpf, hrest]

lemma countP_eq_one_of_nodup (l : List PyStr) (a : PyStr) (hnd : l.Nodup) (ha : a ∈ l) :
    l.countP (fun q => decide (q = a)) = 1 := by
  induction l with
  | nil => cases ha
  | cons x rest ih =>
    rw [List.nodup_cons] at hnd
    rcases List.mem_cons.mp ha with rfl | h
    · have hz : rest.countP (fun q => decide (q = a)) = 0 := by
        rw [List.countP_eq_zero]
        intro q hq
        simp only [decide_eq_true_iff]
        intro he
        exact hnd.1 (he ▸ hq)
      simp [List.countP_cons, hz]
    · have hxa : x ≠ a := fun he => hnd.1 (he ▸ h)
      simp [List.countP_cons, hxa, ih hnd.2 h]

/-- C8: saving a snapshot and then immediately listing the history
yields a sequence containing that snapshot's grand total, keyed by its
filename timestamp, exactly once.  The other files in the directory
are assumed not to display the same minute-resolution timestamp, which
is what "keyed by its filename timestamp" presupposes. -/
theorem c8_saved_snapshot_listed_once (dir : Dir) (t : Timestamp) (gt : ℚ)
    (hvalid : ValidTs t) (hnodup : (dir.map Prod.fst).Nodup)
    (hother : ∀ p c, (p, c) ∈ dir → p ≠ snapshot_filename t → ∀ t2,
      globMatch p = true → parse_ts (tsStrOf p) = some t2 → fmt_ts t2 ≠ fmt_ts t) :
    (api_history (save_snapshot dir t gt)).countP
        (fun e => decide (e.1 = fmt_ts t)) = 1 ∧
    ∀ e ∈ api_history (save_snapshot dir t gt), e.1 = fmt_ts t → e.2 = gt := by
  set newDir := save_snapshot dir t gt with hnew
  have hnodup2 : (newDir.map Prod.fst).Nodup := save_snapshot_nodup dir t gt hnodup
  have hglobf := (snapshot_filename_facts t).1
  have hdec : decodeSnapshot newDir (snapshot_filename t) = some (t, gt) :=
    decode_save_self dir t gt hvalid
  have hfail : ∀ p ∈ sortedPaths newDir, p ≠ snapshot_filename t →
      ∀ r : Timestamp × ℚ, decodeSnapshot newDir p = some r →
        decide (fmt_ts r.1 = fmt_ts t) = false := by
    intro p hps hpf r hr
    obtain ⟨c, hmem, hparse⟩ := decode_save_other dir t gt p hpf r hr
    have hg := mem_sortedPaths_glob newDir p hps
    have := hother p c hmem hpf r.1 hg hparse
    simp [this]
  constructor
  · unfold api_history
    rw [List.countP_map]
    have hcount : (api_history_records newDir).countP
        (fun r => decide (fmt_ts r.1 = fmt_ts t)) =
        (sortedPaths newDir).countP
          (fun q => decide (q = snapshot_filename t)) := by
      unfold api_history_records
      exact countP_filterMap_count (decodeSnapshot newDir) _
        (snapshot_filename t) (t, gt) hdec (by simp) (sortedPaths newDir) hfail
    have hmatched : (matchedPaths newDir).countP
        (fun q => decide (q = snapshot_filename t)) = 1 := by
      refine countP_eq_one_of_nodup _ _ ?_ ?_
      · exact List.Nodup.sublist
          (List.filter_sublist (newDir.map Prod.fst)) hnodup2
      · refine List.mem_filter.mpr ⟨?_, hglobf⟩
        rw [hnew]
        unfold save_snapshot
        exact List.mem_cons_self _ _
    have hperm := (List.perm_insertionSort pathLe (matchedPaths newDir)).countP_eq
      (fun q => decide (q = snapshot_filename t))
    have hcomp : ((fun e : PyStr × ℚ => decide (e.1 = fmt_ts t)) ∘
        fun r : Timestamp × ℚ => (fmt_ts r.1, r.2)) =
        fun r : Timestamp × ℚ => decide (fmt_ts r.1 = fmt_ts t) := rfl
    rw [hcomp, hcount]
    unfold sortedPaths
    rw [hperm]
    exact hmatched
  · intro e he hfmt
    obtain ⟨r, hrmem, hre⟩ := List.mem_map.mp he
    obtain ⟨p, hps, hdecp⟩ := List.mem_filterMap.mp hrmem
    by_cases hpf : p = snapshot_filename t
    · subst hpf
      rw [hdec] at hdecp
      obtain rfl := Option.some_inj.mp hdecp
      rw [← hre]
    · have := hfail p hps hpf r hdecp
      rw [decide_eq_false_iff_not] at this
      rw [← hre] at hfmt
      exact absurd hfmt this

/-- Witness for C8: saving a snapshot with grand total 5 into an empty
directory and listing the history shows that total exactly once. -/
theorem c8_witness :
    (api_history (save_snapshot [] ⟨2025, 1, 1, 0, 0, 0⟩ 5)).countP
      (fun e => decide (e.1 = fmt_ts ⟨2025, 1, 1, 0, 0, 0⟩)) = 1 :=
  (c8_saved_snapshot_listed_once [] ⟨2025, 1, 1, 0, 0, 0⟩ 5
    (by simp [ValidTs]) (by simp)
    (fun p c h => absurd h (List.not_mem_nil _))).1
